import Mathlib

/-!
Verification of the SmilesDentalCare assistant core against its specification.

The development shallowly embeds the two core subsystems of the repository:

* the retrieval pipeline of `modules/rag_pipeline.py` (text chunker,
  MMR re-ranker, flat L2 index search, `retrieve`, and the persistence step
  of `build_index`), and
* the multi-turn booking dialogue of `app.py` (`run_booking_flow`,
  `reset_booking_flow`, `has_booking_conflict`, the date/time parsers).

Python's machine floats only enter through the embedding model and the
cosine-similarity library call; both are external collaborators here, so
similarity values are modelled as rationals and the cosine function itself
is passed as an oracle parameter shared by the code embedding and the
reference algorithm.  Strings, lists and dictionaries are modelled by
`String`, `List` and `structure`s with `Option` fields for nullable slots.
-/

namespace SmilesDental

/-! ## Text chunker (`RAGPipeline.chunk_text`) -/

/-- Splitter for Python `str.split()` with no argument: split on runs of
whitespace and discard empty pieces. -/
def splitWsAux : List Char → List Char → List (List Char)
  | [], acc => if acc = [] then [] else [acc.reverse]
  | c :: cs, acc =>
    if c.isWhitespace then
      (if acc = [] then splitWsAux cs [] else acc.reverse :: splitWsAux cs [])
    else splitWsAux cs (c :: acc)

/-- Python `str.split()` with no argument. -/
def pySplit (s : String) : List String :=
  (splitWsAux s.data []).map String.mk

/-- The `while start < len(words)` loop of `chunk_text`, at token level:
window `words[start:start+chunk_size]`, then
`start = max(end - overlap, start + 1)`.  Nat subtraction truncates at 0
exactly where the Python `max` would pick `start + 1` anyway, so the step
matches the source on all inputs. -/
def chunkLoop (words : List String) (chunk_size overlap start : Nat) :
    List (List String) :=
  if h : start < words.length then
    ((words.drop start).take chunk_size) ::
      chunkLoop words chunk_size overlap (max (start + chunk_size - overlap) (start + 1))
  else
    []
termination_by words.length - start
decreasing_by
  have hs : start + 1 ≤ max (start + chunk_size - overlap) (start + 1) :=
    Nat.le_max_right _ _
  omega

/-- `RAGPipeline.chunk_text`: split into tokens, slide the window, join each
window with single spaces. -/
def chunk_text (text : String) (chunk_size : Nat := 600) (overlap : Nat := 150) :
    List String :=
  (chunkLoop (pySplit text) chunk_size overlap 0).map (String.intercalate " ")

/-- Concatenation of the token windows with the overlap duplication removed:
the first window whole, every later window minus its first `overlap` tokens. -/
def dropOverlapConcat (overlap : Nat) : List (List String) → List String
  | [] => []
  | w :: rest => w ++ (rest.map (List.drop overlap)).flatten

/-- Fuel-indexed version of the chunking loop, used to state termination:
`none` means the fuel ran out before the loop condition failed. -/
def chunkLoopFuel (fuel : Nat) (words : List String) (chunk_size overlap start : Nat) :
    Option (List (List String)) :=
  match fuel with
  | 0 => none
  | f + 1 =>
    if start < words.length then
      (chunkLoopFuel f words chunk_size overlap
          (max (start + chunk_size - overlap) (start + 1))).map
        (((words.drop start).take chunk_size) :: ·)
    else
      some []

theorem chunkLoop_ge (words : List String) (cs ov start : Nat)
    (h : words.length ≤ start) : chunkLoop words cs ov start = [] := by
  rw [chunkLoop]
  simp [Nat.not_lt.mpr h]

/-- With `overlap < chunk_size` the step is exactly `chunk_size - overlap`. -/
theorem chunkLoop_step (words : List String) (cs ov start : Nat) (hov : ov < cs)
    (h : start < words.length) :
    chunkLoop words cs ov start =
      ((words.drop start).take cs) :: chunkLoop words cs ov (start + (cs - ov)) := by
  rw [chunkLoop]
  have hmax : max (start + cs - ov) (start + 1) = start + (cs - ov) := by omega
  simp [h, hmax]

theorem drop_add (l : List String) (a b : Nat) :
    l.drop (a + b) = (l.drop a).drop b :=
  (List.drop_drop b a l).symm

theorem window_glue (l : List String) (a b : Nat) :
    (l.drop a).take b ++ l.drop (a + b) = l.drop a := by
  rw [drop_add, List.take_append_drop]

/-- Dropping the first `overlap` tokens of every window and flattening yields
the suffix of the token list from position `start + overlap`. -/
theorem chunkLoop_drop_flatten (words : List String) (cs ov : Nat) (hov : ov < cs) :
    ∀ start, ((chunkLoop words cs ov start).map (List.drop ov)).flatten =
      words.drop (start + ov) := by
  intro start
  by_cases h : start < words.length
  · rw [chunkLoop_step words cs ov start hov h]
    have ih := chunkLoop_drop_flatten words cs ov hov (start + (cs - ov))
    simp only [List.map_cons, List.flatten_cons, ih]
    have h1 : ((words.drop start).take cs).drop ov =
        (words.drop (start + ov)).take (cs - ov) := by
      rw [List.drop_take]
      congr 1
      exact (drop_add words start ov).symm
    have h2 : start + (cs - ov) + ov = (start + ov) + (cs - ov) := by omega
    rw [h1, h2, window_glue]
  · rw [chunkLoop_ge words cs ov start (Nat.not_lt.mp h)]
    simp only [List.map_nil, List.flatten_nil]
    exact (List.drop_eq_nil_of_le (by omega)).symm
termination_by start => words.length - start
decreasing_by omega

/-- Removing the overlap duplication from the windows starting at 0
reconstructs the whole token list. -/
theorem chunkLoop_reconstruct (words : List String) (cs ov : Nat) (hov : ov < cs) :
    dropOverlapConcat ov (chunkLoop words cs ov 0) = words := by
  by_cases h : 0 < words.length
  · rw [chunkLoop_step words cs ov 0 hov h]
    simp only [dropOverlapConcat]
    rw [chunkLoop_drop_flatten words cs ov hov (0 + (cs - ov))]
    have : 0 + (cs - ov) + ov = cs := by omega
    rw [this]
    simp [List.take_append_drop cs words]
  · have : words = [] := List.eq_nil_of_length_eq_zero (by omega)
    subst this
    simp [chunkLoop_ge, dropOverlapConcat]

theorem mem_dropOverlapConcat {ov : Nat} {l : List (List String)} {x : String}
    (hx : x ∈ dropOverlapConcat ov l) : ∃ w ∈ l, x ∈ w := by
  cases l with
  | nil => simp [dropOverlapConcat] at hx
  | cons w rest =>
    simp only [dropOverlapConcat, List.mem_append] at hx
    cases hx with
    | inl h => exact ⟨w, by simp, h⟩
    | inr h =>
      rw [List.mem_flatten] at h
      obtain ⟨p, hp, hxp⟩ := h
      rw [List.mem_map] at hp
      obtain ⟨r, hr, rfl⟩ := hp
      exact ⟨r, by simp [hr], List.mem_of_mem_drop hxp⟩

/-- C6 (claim theorem): for `overlap < chunk_size`, `chunk_text` splits the
text into whitespace-delimited tokens and windows them so that (a) the
returned chunks are exactly the windows joined by single spaces, (b) the
concatenation of the windows with the overlap duplication removed is the
original token sequence in order, and (c) every token appears in at least
one chunk's window. -/
theorem C6_chunk_reconstruct (text : String) (cs ov : Nat) (hov : ov < cs) :
    chunk_text text cs ov =
        (chunkLoop (pySplit text) cs ov 0).map (String.intercalate " ") ∧
      dropOverlapConcat ov (chunkLoop (pySplit text) cs ov 0) = pySplit text ∧
      ∀ x ∈ pySplit text, ∃ w ∈ chunkLoop (pySplit text) cs ov 0, x ∈ w := by
  refine ⟨rfl, chunkLoop_reconstruct (pySplit text) cs ov hov, ?_⟩
  intro x hx
  have := chunkLoop_reconstruct (pySplit text) cs ov hov
  rw [← this] at hx
  exact mem_dropOverlapConcat hx

theorem C6_chunk_reconstruct_witness :
    (150 : Nat) < 600 ∧
      (chunk_text "a b c" 600 150 =
          (chunkLoop (pySplit "a b c") 600 150 0).map (String.intercalate " ") ∧
        dropOverlapConcat 150 (chunkLoop (pySplit "a b c") 600 150 0) = pySplit "a b c" ∧
        ∀ x ∈ pySplit "a b c", ∃ w ∈ chunkLoop (pySplit "a b c") 600 150 0, x ∈ w) :=
  ⟨by decide, C6_chunk_reconstruct "a b c" 600 150 (by decide)⟩

theorem chunkLoopFuel_spec (words : List String) (cs ov : Nat) :
    ∀ fuel start, words.length - start < fuel →
      chunkLoopFuel fuel words cs ov start = some (chunkLoop words cs ov start) := by
  intro fuel
  induction fuel with
  | zero => intro start h; omega
  | succ f ih =>
    intro start h
    by_cases hs : start < words.length
    · rw [chunkLoopFuel, chunkLoop]
      simp only [hs, if_pos]
      rw [ih (max (start + cs - ov) (start + 1)) (by omega)]
      simp
    · rw [chunkLoopFuel, chunkLoop]
      simp [hs]

/-- C9 (claim theorem): for every input text and all `chunk_size`/`overlap`
values, including `overlap ≥ chunk_size`, the chunking loop terminates
within `tokens + 1` iterations — each iteration advances the window start by
`max (chunk_size - overlap) 1 ≥ 1` — and it produces at most one chunk per
token. -/
theorem C9_termination (text : String) (cs ov : Nat) :
    chunkLoopFuel ((pySplit text).length + 1) (pySplit text) cs ov 0 =
        some (chunkLoop (pySplit text) cs ov 0) ∧
      (chunkLoop (pySplit text) cs ov 0).length ≤ (pySplit text).length := by
  constructor
  · exact chunkLoopFuel_spec (pySplit text) cs ov ((pySplit text).length + 1) 0 (by omega)
  · have key : ∀ fuel start, (pySplit text).length - start < fuel →
        (chunkLoop (pySplit text) cs ov start).length ≤ (pySplit text).length - start := by
      intro fuel
      induction fuel with
      | zero => intro start h; omega
      | succ f ih =>
        intro start h
        by_cases hs : start < (pySplit text).length
        · rw [chunkLoop]
          simp only [hs, dif_pos, List.length_cons]
          have hnext := ih (max (start + cs - ov) (start + 1)) (by omega)
          omega
        · rw [chunkLoop_ge _ _ _ _ (Nat.not_lt.mp hs)]
          simp
    have := key ((pySplit text).length + 1) 0 (by omega)
    omega

/-! ## MMR re-ranker (`RAGPipeline.maximal_marginal_relevance`)

The similarity values produced by `sklearn.metrics.pairwise.cosine_similarity`
are supplied as oracles shared by the code embedding and the reference
algorithm: `simQ i` is the cosine similarity of candidate `i` to the query
(`sims_to_query[idx]` in the source) and `simC i j` the one between
candidates `i` and `j`.  Quantifying over these oracles covers every query
embedding and candidate embedding list. -/

/-- `np.max` over the similarities of candidate `idx` to the already selected
candidates; the `if not selected_indices: diversity = 0` branch of the source
gives `0` for an empty selection. -/
def maxSimTo (simC : Nat → Nat → ℚ) (idx : Nat) : List Nat → ℚ
  | [] => 0
  | s :: ss => (ss.map (simC idx)).foldl max (simC idx s)

/-- The `mmr_score` expression of the loop body:
`(lambda_mult * relevance) - ((1 - lambda_mult) * diversity)`.  The spec's
score formula (§4.4) is word-for-word the same expression, so both sides of
the refinement use this definition. -/
def mmr_score (simQ : Nat → ℚ) (simC : Nat → Nat → ℚ) (lambda_mult : ℚ)
    (selected : List Nat) (idx : Nat) : ℚ :=
  lambda_mult * simQ idx - (1 - lambda_mult) * maxSimTo simC idx selected

/-- One step of the `for idx in candidate_indices` scan: `best_score = -inf`
is modelled as `none` (which any first candidate beats), and the source
updates on a strict `mmr_score > best_score`. -/
def stepBest (score : Nat → ℚ) (acc : Option (Nat × ℚ)) (idx : Nat) :
    Option (Nat × ℚ) :=
  match acc with
  | none => some (idx, score idx)
  | some (b, bs) => if bs < score idx then some (idx, score idx) else some (b, bs)

/-- The inner argmax scan of `maximal_marginal_relevance`; `none` is the
`best_idx == -1` outcome, reached only on an empty pool. -/
def pickBest (score : Nat → ℚ) (cands : List Nat) : Option Nat :=
  (cands.foldl (stepBest score) none).map Prod.fst

/-- The outer `for _ in range(top_k)` loop: pick the best-scoring candidate,
append it to `selected_indices`, `remove` it from `candidate_indices`;
`best_idx == -1` breaks the loop. -/
def mmrGo (simQ : Nat → ℚ) (simC : Nat → Nat → ℚ) (lambda_mult : ℚ) :
    Nat → List Nat → List Nat → List Nat
  | 0, selected, _ => selected
  | rounds + 1, selected, cands =>
    match pickBest (mmr_score simQ simC lambda_mult selected) cands with
    | none => selected
    | some b => mmrGo simQ simC lambda_mult rounds (selected ++ [b]) (cands.erase b)

/-- `RAGPipeline.maximal_marginal_relevance`: `n` is `len(chunk_embeddings)`
(the `chunk_embeddings is None` case is `n = 0` here), the pool starts as
`list(range(len(chunk_embeddings)))`. -/
def maximal_marginal_relevance (simQ : Nat → ℚ) (simC : Nat → Nat → ℚ)
    (n : Nat) (top_k : Nat := 4) (lambda_mult : ℚ := 1/2) : List Nat :=
  if n = 0 then [] else mmrGo simQ simC lambda_mult top_k [] (List.range n)

/-- Modelled from the spec (§4.4): the pool indices whose score no other
pool index strictly exceeds. -/
def mmrMaximisers (score : Nat → ℚ) (pool : List Nat) : List Nat :=
  pool.filter (fun i => pool.all (fun j => decide (score j ≤ score i)))

/-- Modelled from the spec (§4.4): "Move the index with the highest score
from C to S (ties broken by lowest original index for determinism)" — the
lowest original index among the score maximisers, `none` on an empty pool. -/
def specArgmax (score : Nat → ℚ) (pool : List Nat) : Option Nat :=
  match mmrMaximisers score pool with
  | [] => none
  | i :: is => some (is.foldl min i)

/-- Modelled from the spec (§4.4): the greedy reference loop — repeat up to
`k` times, each round moving the `specArgmax` of the pool into the selection,
stopping early when the pool is empty. -/
def mmrReferenceGo (simQ : Nat → ℚ) (simC : Nat → Nat → ℚ) (lambda_mult : ℚ) :
    Nat → List Nat → List Nat → List Nat
  | 0, S, _ => S
  | k + 1, S, C =>
    match specArgmax (mmr_score simQ simC lambda_mult S) C with
    | none => S
    | some i => mmrReferenceGo simQ simC lambda_mult k (S ++ [i]) (C.erase i)

/-- Modelled from the spec (§4.4): the reference greedy MMR selection over
the candidate indices `range n`. -/
def mmrReference (simQ : Nat → ℚ) (simC : Nat → Nat → ℚ)
    (n top_k : Nat) (lambda_mult : ℚ) : List Nat :=
  mmrReferenceGo simQ simC lambda_mult top_k [] (List.range n)

theorem foldl_stepBest_eq (score : Nat → ℚ) :
    ∀ (cands : List Nat) (b : Nat),
      (cands.foldl (stepBest score) (some (b, score b))).map Prod.fst =
        cands.foldl (List.argAux fun x y => score y < score x) (some b) := by
  intro cands
  induction cands with
  | nil => intro b; rfl
  | cons x xs ih =>
    intro b
    simp only [List.foldl_cons, stepBest, List.argAux]
    by_cases h : score b < score x
    · simp only [h, if_pos]
      exact ih x
    · simp only [h, if_neg, if_false]
      exact ih b

theorem pickBest_eq_argmax (score : Nat → ℚ) (cands : List Nat) :
    pickBest score cands = List.argmax score cands := by
  cases cands with
  | nil => rfl
  | cons x xs =>
    show (List.foldl (stepBest score) (stepBest score none x) xs).map Prod.fst = _
    rw [show stepBest score none x = some (x, score x) from rfl]
    rw [foldl_stepBest_eq score xs x]
    rfl

theorem foldl_min_mem : ∀ (is : List ℕ) (i : ℕ), is.foldl min i ∈ i :: is := by
  intro is
  induction is with
  | nil => intro i; simp
  | cons x xs ih =>
    intro i
    show xs.foldl min (min i x) ∈ i :: x :: xs
    have h := ih (min i x)
    rcases List.mem_cons.mp h with h | h
    · rw [h]
      rcases min_choice i x with hm | hm <;> rw [hm] <;> simp
    · simp [h]

theorem foldl_min_le : ∀ (is : List ℕ) (i j : ℕ), j ∈ i :: is → is.foldl min i ≤ j := by
  intro is
  induction is with
  | nil =>
    intro i j hj
    simp at hj
    simp [hj]
  | cons x xs ih =>
    intro i j hj
    show xs.foldl min (min i x) ≤ j
    rcases List.mem_cons.mp hj with rfl | hj
    · exact le_trans (ih (min j x) (min j x) (List.mem_cons_self _ _)) (min_le_left _ _)
    · rcases List.mem_cons.mp hj with rfl | hj
      · exact le_trans (ih (min i j) (min i j) (List.mem_cons_self _ _)) (min_le_right _ _)
      · exact ih (min i x) j (List.mem_cons_of_mem _ hj)

theorem sorted_le_of_indexOf_le {pool : List ℕ} (hs : pool.Pairwise (· < ·))
    {a b : ℕ} (ha : a ∈ pool) (hb : b ∈ pool)
    (hab : pool.indexOf a ≤ pool.indexOf b) : a ≤ b := by
  have hia := List.indexOf_lt_length.mpr ha
  have hib := List.indexOf_lt_length.mpr hb
  rcases Nat.lt_or_ge (pool.indexOf a) (pool.indexOf b) with h | h
  · have hlt := List.pairwise_iff_get.mp hs ⟨_, hia⟩ ⟨_, hib⟩ h
    rw [List.indexOf_get hia, List.indexOf_get hib] at hlt
    exact hlt.le
  · have heq : pool.indexOf a = pool.indexOf b := le_antisymm hab h
    have : a = b := by
      rw [← List.indexOf_get hia, ← List.indexOf_get hib]
      congr 1
      exact Fin.ext heq
    exact this.le

theorem argmax_eq_specArgmax (score : Nat → ℚ) (pool : List ℕ)
    (hs : pool.Pairwise (· < ·)) :
    List.argmax score pool = specArgmax score pool := by
  cases harg : List.argmax score pool with
  | none =>
    have : pool = [] := List.argmax_eq_none.mp harg
    subst this
    rfl
  | some m =>
    obtain ⟨hm, hmax, hidx⟩ := List.argmax_eq_some_iff.mp harg
    have hmM : m ∈ mmrMaximisers score pool := by
      refine List.mem_filter.mpr ⟨hm, ?_⟩
      simp only [List.all_eq_true, decide_eq_true_eq]
      exact fun j hj => hmax j hj
    unfold specArgmax
    cases hM : mmrMaximisers score pool with
    | nil => rw [hM] at hmM; simp at hmM
    | cons i is =>
      rw [hM] at hmM
      have hr_mem : is.foldl min i ∈ i :: is := foldl_min_mem is i
      have hr_poolmem : is.foldl min i ∈ pool := by
        have : is.foldl min i ∈ mmrMaximisers score pool := hM ▸ hr_mem
        exact (List.mem_filter.mp this).1
      have hr_max : ∀ j ∈ pool, score j ≤ score (is.foldl min i) := by
        have hmem : is.foldl min i ∈ mmrMaximisers score pool := hM ▸ hr_mem
        have := (List.mem_filter.mp hmem).2
        simp only [List.all_eq_true, decide_eq_true_eq] at this
        exact this
      have h1 : is.foldl min i ≤ m := foldl_min_le is i m hmM
      have h2 : m ≤ is.foldl min i := by
        have hscore : score m ≤ score (is.foldl min i) := hr_max m hm
        have := hidx (is.foldl min i) hr_poolmem hscore
        exact sorted_le_of_indexOf_le hs hm hr_poolmem this
      simp [le_antisymm h1 h2]

theorem mmrGo_eq_referenceGo (simQ : Nat → ℚ) (simC : Nat → Nat → ℚ)
    (lam : ℚ) :
    ∀ (rounds : Nat) (S C : List Nat), C.Pairwise (· < ·) →
      mmrGo simQ simC lam rounds S C = mmrReferenceGo simQ simC lam rounds S C := by
  intro rounds
  induction rounds with
  | zero => intro S C _; rfl
  | succ r ih =>
    intro S C hC
    rw [mmrGo, mmrReferenceGo,
      pickBest_eq_argmax (mmr_score simQ simC lam S) C,
      argmax_eq_specArgmax (mmr_score simQ simC lam S) C hC]
    cases specArgmax (mmr_score simQ simC lam S) C with
    | none => rfl
    | some b =>
      exact ih (S ++ [b]) (C.erase b) (List.Pairwise.sublist (C.erase_sublist b) hC)

theorem mmrGo_props (simQ : Nat → ℚ) (simC : Nat → Nat → ℚ) (lam : ℚ) :
    ∀ (rounds : Nat) (S C : List Nat), S.Nodup → C.Nodup → (∀ i ∈ S, i ∉ C) →
      (mmrGo simQ simC lam rounds S C).Nodup ∧
        (mmrGo simQ simC lam rounds S C).length ≤ S.length + rounds ∧
        ∀ i ∈ mmrGo simQ simC lam rounds S C, i ∈ S ∨ i ∈ C := by
  intro rounds
  induction rounds with
  | zero =>
    intro S C hS _ _
    refine ⟨hS, ?_, fun i hi => Or.inl hi⟩
    show S.length ≤ S.length + 0
    omega
  | succ r ih =>
    intro S C hS hC hdisj
    rw [mmrGo]
    cases hp : pickBest (mmr_score simQ simC lam S) C with
    | none =>
      refine ⟨hS, ?_, fun i hi => Or.inl hi⟩
      show S.length ≤ S.length + (r + 1)
      omega
    | some b =>
      show (mmrGo simQ simC lam r (S ++ [b]) (C.erase b)).Nodup ∧
          (mmrGo simQ simC lam r (S ++ [b]) (C.erase b)).length ≤ S.length + (r + 1) ∧
          ∀ i ∈ mmrGo simQ simC lam r (S ++ [b]) (C.erase b), i ∈ S ∨ i ∈ C
      have hbC : b ∈ C := by
        rw [pickBest_eq_argmax] at hp
        exact List.argmax_mem hp
      have hbS : b ∉ S := fun h => hdisj b h hbC
      have hS' : (S ++ [b]).Nodup := by
        simp [List.nodup_append, hS, hbS]
      have hC' : (C.erase b).Nodup := hC.erase b
      have hdisj' : ∀ i ∈ S ++ [b], i ∉ C.erase b := by
        intro i hi
        rcases List.mem_append.mp hi with hi | hi
        · exact fun h => hdisj i hi ((C.erase_sublist b).mem h)
        · have : i = b := by simpa using hi
          subst this
          intro h
          exact ((hC.mem_erase_iff).mp h).1 rfl
      obtain ⟨h1, h2, h3⟩ := ih (S ++ [b]) (C.erase b) hS' hC' hdisj'
      refine ⟨h1, ?_, ?_⟩
      · simp only [List.length_append, List.length_cons, List.length_nil] at h2
        omega
      · intro i hi
        rcases h3 i hi with hi' | hi'
        · rcases List.mem_append.mp hi' with h | h
          · exact Or.inl h
          · have hib : i = b := by simpa using h
            subst hib
            exact Or.inr hbC
        · exact Or.inr ((C.erase_sublist b).mem hi')

theorem mmrReferenceGo_nil (simQ : Nat → ℚ) (simC : Nat → Nat → ℚ)
    (lam : ℚ) (k : Nat) (S : List Nat) :
    mmrReferenceGo simQ simC lam k S [] = S := by
  cases k with
  | zero => rfl
  | succ k => rfl

/-- C3 (claim theorem): `maximal_marginal_relevance` equals the reference
greedy MMR procedure of the spec (same selections, ties to the lowest
original index, stop after `top_k` rounds or on an empty pool), and
consequently returns at most `top_k` pairwise-distinct indices, all drawn
from `range n`, in selection order. -/
theorem C3_mmr_correct (simQ : Nat → ℚ) (simC : Nat → Nat → ℚ)
    (n top_k : Nat) (lambda_mult : ℚ) :
    maximal_marginal_relevance simQ simC n top_k lambda_mult =
        mmrReference simQ simC n top_k lambda_mult ∧
      (maximal_marginal_relevance simQ simC n top_k lambda_mult).Nodup ∧
      (maximal_marginal_relevance simQ simC n top_k lambda_mult).length ≤ top_k ∧
      ∀ i ∈ maximal_marginal_relevance simQ simC n top_k lambda_mult, i < n := by
  unfold maximal_marginal_relevance mmrReference
  by_cases hn : n = 0
  · subst hn
    simp [mmrReferenceGo_nil]
  · simp only [hn, if_neg, if_false]
    have hsorted : (List.range n).Pairwise (· < ·) := List.pairwise_lt_range n
    refine ⟨mmrGo_eq_referenceGo simQ simC lambda_mult top_k [] (List.range n) hsorted, ?_⟩
    obtain ⟨h1, h2, h3⟩ := mmrGo_props simQ simC lambda_mult top_k [] (List.range n)
      List.nodup_nil (List.nodup_range n) (by simp)
    refine ⟨h1, by simpa using h2, fun i hi => ?_⟩
    rcases h3 i hi with h | h
    · simp at h
    · exact List.mem_range.mp h

theorem mmr_length_le (simQ : Nat → ℚ) (simC : Nat → Nat → ℚ)
    (n k : Nat) (lam : ℚ) :
    (maximal_marginal_relevance simQ simC n k lam).length ≤ k := by
  unfold maximal_marginal_relevance
  by_cases hn : n = 0
  · simp [hn]
  · simp only [hn, if_neg, if_false]
    have := (mmrGo_props simQ simC lam k [] (List.range n)
      List.nodup_nil (List.nodup_range n) (by simp)).2.1
    simpa using this

theorem mmr_mem_lt (simQ : Nat → ℚ) (simC : Nat → Nat → ℚ)
    (n k : Nat) (lam : ℚ) :
    ∀ i ∈ maximal_marginal_relevance simQ simC n k lam, i < n := by
  unfold maximal_marginal_relevance
  by_cases hn : n = 0
  · simp [hn]
  · simp only [hn, if_neg, if_false]
    intro i hi
    have := (mmrGo_props simQ simC lam k [] (List.range n)
      List.nodup_nil (List.nodup_range n) (by simp)).2.2 i hi
    rcases this with h | h
    · simp at h
    · exact List.mem_range.mp h

/-! ## Retrieval pipeline (`RAGPipeline.retrieve` and `build_index` persistence) -/

/-- Squared Euclidean distance, the ranking key of `faiss.IndexFlatL2`
(squaring preserves the ascending-distance order, so no square root is
needed). -/
def sqDist (u v : List ℚ) : ℚ :=
  ((u.zip v).map (fun ab => (ab.1 - ab.2) ^ 2)).sum

/-- `faiss.IndexFlatL2.search`: the `k` stored vector ids closest to `q` by
ascending Euclidean distance, ties by lower id. -/
def searchL2 (vecs : List (List ℚ)) (q : List ℚ) (k : Nat) : List Nat :=
  ((List.range vecs.length).mergeSort (fun i j =>
    decide (sqDist (vecs.getD i []) q < sqDist (vecs.getD j []) q ∨
      (sqDist (vecs.getD i []) q = sqDist (vecs.getD j []) q ∧ i ≤ j)))).take k

theorem searchL2_mem_lt (vecs : List (List ℚ)) (q : List ℚ) (k : Nat) :
    ∀ i ∈ searchL2 vecs q k, i < vecs.length := by
  intro i hi
  have h1 : i ∈ (List.range vecs.length).mergeSort _ := List.mem_of_mem_take hi
  have h2 : i ∈ List.range vecs.length :=
    (List.mergeSort_perm (List.range vecs.length) _).mem_iff.mp h1
  exact List.mem_range.mp h2

/-- The state of one user's `RAGPipeline`: the embedding model (`None` when
`sentence_transformers` is unavailable or fails to load), the flat vector
index, and the parallel chunk-text array. -/
structure RAGPipeline where
  sbert : Option (String → List ℚ)
  index : Option (List (List ℚ))
  text_chunks : List String

/-- `RAGPipeline.embed`: `None` exactly when the model is unavailable,
otherwise the embeddings of the texts, in order. -/
def RAGPipeline.embed (p : RAGPipeline) (texts : List String) :
    Option (List (List ℚ)) :=
  match p.sbert with
  | none => none
  | some f => some (texts.map f)

/-- `RAGPipeline.retrieve`, with `sklearn`'s cosine similarity supplied as
the oracle `cos`: guard clauses first (`not self.index or
len(self.text_chunks) == 0 or not self.sbert`, then `q_emb is None`), then
fetch `min(len(self.text_chunks), top_k * 4)` nearest candidates, re-embed
them and re-rank with MMR (the `candidate_embeddings is None` fallback to
`candidate_chunks[:top_k]` is unreachable once `sbert` is present). -/
def RAGPipeline.retrieve (cos : List ℚ → List ℚ → ℚ) (p : RAGPipeline)
    (query : String) (top_k : Nat := 4) : List String :=
  if p.index.isNone ∨ p.text_chunks.length = 0 ∨ p.sbert.isNone then []
  else
    match p.embed [query] with
    | none => []
    | some qs =>
      let q_emb := qs.getD 0 []
      let fetch_k := min p.text_chunks.length (top_k * 4)
      let candidate_indices := searchL2 (p.index.getD []) q_emb fetch_k
      let candidate_chunks := candidate_indices.map (fun i => p.text_chunks.getD i "")
      match p.embed candidate_chunks with
      | none => candidate_chunks.take top_k
      | some candidate_embeddings =>
        (maximal_marginal_relevance
            (fun i => cos q_emb (candidate_embeddings.getD i []))
            (fun i j => cos (candidate_embeddings.getD i []) (candidate_embeddings.getD j []))
            candidate_embeddings.length top_k (1/2)).map
          (fun i => candidate_chunks.getD i "")

/-- C4 (claim theorem): `retrieve` returns `[]` (and cannot fail) whenever
there is no index, the chunk list is empty, or the embedding model is
unavailable; otherwise — for an index consistent with its chunk metadata —
it embeds the query, fetches `min(top_k * 4, index size)` nearest
candidates, re-embeds them, applies MMR with `lambda = 1/2`, and returns
exactly the selected candidates' text in MMR selection order; in
particular it returns at most `top_k` chunks, all drawn from
`text_chunks`. -/
theorem C4_retrieve (cos : List ℚ → List ℚ → ℚ) (p : RAGPipeline)
    (query : String) (top_k : Nat) :
    ((p.index = none ∨ p.text_chunks = [] ∨ p.sbert = none) →
      RAGPipeline.retrieve cos p query top_k = []) ∧
    (∀ vecs f, p.index = some vecs → p.sbert = some f → p.text_chunks ≠ [] →
      vecs.length = p.text_chunks.length →
      (RAGPipeline.retrieve cos p query top_k =
          (let q_emb := f query
           let candidate_indices :=
             searchL2 vecs q_emb (min p.text_chunks.length (top_k * 4))
           let candidate_chunks :=
             candidate_indices.map (fun i => p.text_chunks.getD i "")
           let embs := candidate_chunks.map f
           (maximal_marginal_relevance
               (fun i => cos q_emb (embs.getD i []))
               (fun i j => cos (embs.getD i []) (embs.getD j []))
               embs.length top_k (1/2)).map
             (fun i => candidate_chunks.getD i "")) ∧
        (RAGPipeline.retrieve cos p query top_k).length ≤ top_k ∧
        ∀ s ∈ RAGPipeline.retrieve cos p query top_k, s ∈ p.text_chunks)) := by
  constructor
  · intro h
    unfold RAGPipeline.retrieve
    rcases h with h | h | h <;>
      simp [h, Option.isNone_iff_eq_none, List.length_eq_zero]
  · intro vecs f hidx hsb hne hlen
    have hcond : ¬(p.index.isNone ∨ p.text_chunks.length = 0 ∨ p.sbert.isNone) := by
      push_neg
      refine ⟨by simp [hidx], ?_, by simp [hsb]⟩
      simpa [List.length_eq_zero] using hne
    have hembq : p.embed [query] = some [f query] := by
      simp [RAGPipeline.embed, hsb]
    have heq : RAGPipeline.retrieve cos p query top_k =
        (let q_emb := f query
         let candidate_indices :=
           searchL2 vecs q_emb (min p.text_chunks.length (top_k * 4))
         let candidate_chunks :=
           candidate_indices.map (fun i => p.text_chunks.getD i "")
         let embs := candidate_chunks.map f
         (maximal_marginal_relevance
             (fun i => cos q_emb (embs.getD i []))
             (fun i j => cos (embs.getD i []) (embs.getD j []))
             embs.length top_k (1/2)).map
           (fun i => candidate_chunks.getD i "")) := by
      unfold RAGPipeline.retrieve
      rw [if_neg hcond, hembq]
      simp only [RAGPipeline.embed, hsb, hidx, Option.getD_some, List.getD]
      rfl
    refine ⟨heq, ?_, ?_⟩
    · rw [heq]
      simp only [List.length_map]
      exact le_trans (le_of_eq (by rfl)) (mmr_length_le _ _ _ _ _)
    · intro s hs
      rw [heq] at hs
      simp only [List.mem_map] at hs
      obtain ⟨i, hi, rfl⟩ := hs
      have hlt := mmr_mem_lt _ _ _ _ _ i hi
      simp only [List.length_map] at hlt
      set cands := searchL2 vecs (f query) (min p.text_chunks.length (top_k * 4)) with hcands
      have hi_lt : i < (cands.map (fun j => p.text_chunks.getD j "")).length := by
        simpa using hlt
      rw [List.getD_eq_getElem _ _ hi_lt]
      have : (cands.map (fun j => p.text_chunks.getD j ""))[i] ∈
          cands.map (fun j => p.text_chunks.getD j "") := List.getElem_mem _
      simp only [List.mem_map] at this
      obtain ⟨j, hj, hjeq⟩ := this
      have hjlt : j < p.text_chunks.length := hlen ▸ searchL2_mem_lt vecs (f query) _ j hj
      rw [← hjeq, List.getD_eq_getElem _ _ hjlt]
      exact List.getElem_mem _

theorem C4_retrieve_witness :
    (some [[(0:ℚ)],[(1:ℚ)]] = some [[(0:ℚ)],[(1:ℚ)]] ∧ (["a","b"] : List String) ≠ [] ∧
        ([[(0:ℚ)],[(1:ℚ)]] : List (List ℚ)).length = (["a","b"] : List String).length) ∧
      (RAGPipeline.retrieve (fun _ _ => (0:ℚ))
          ⟨some (fun _ => [(0:ℚ)]), some [[(0:ℚ)],[(1:ℚ)]], ["a","b"]⟩ "q" 1).length ≤ 1 :=
  ⟨⟨rfl, by simp, by simp⟩,
    ((C4_retrieve (fun _ _ => (0:ℚ))
        ⟨some (fun _ => [(0:ℚ)]), some [[(0:ℚ)],[(1:ℚ)]], ["a","b"]⟩ "q" 1).2
      [[(0:ℚ)],[(1:ℚ)]] (fun _ => [(0:ℚ)]) rfl rfl (by simp) (by simp)).2.1⟩

/-! ## Persistence of the index (`build_index`, lines 75–86)

`build_index` persists with `faiss.write_index(self.index, self.index_path)`
followed by `json.dump(self.text_chunks, open(self.meta_path, "w"))`.  Both
calls open the *final* destination path for writing (truncating whatever was
there) and then write the data into it; no temporary file and no rename is
involved.  We model the externally observable file operations of that step
as a trace. -/

inductive FileOp where
  | openTrunc (path : String)
  | writeData (path : String)
  | rename (src dst : String)
deriving DecidableEq

def index_path (user_id : String) : String :=
  "vector_store/user_" ++ user_id ++ ".faiss"

def meta_path (user_id : String) : String :=
  "vector_store/user_" ++ user_id ++ "_meta.json"

/-- The file operations the persistence step of `build_index` performs, in
program order: truncate-open and write the index file, then truncate-open
and write the metadata file. -/
def persistOps (user_id : String) : List FileOp :=
  [FileOp.openTrunc (index_path user_id), FileOp.writeData (index_path user_id),
   FileOp.openTrunc (meta_path user_id), FileOp.writeData (meta_path user_id)]

/-- The write-to-temporary-then-swap discipline demanded by the spec: a
final path is never opened for truncating write nor written directly; it may
only appear as the destination of a rename. -/
def atomicSwapDiscipline (finalPaths : List String) (ops : List FileOp) : Prop :=
  ∀ pth ∈ finalPaths, FileOp.openTrunc pth ∉ ops ∧ FileOp.writeData pth ∉ ops

/-- A concurrent reader of `pth` can observe a half-written state: some
prefix of the trace has already truncated `pth` but not yet completed the
write of its data. -/
def observesHalfWritten (pth : String) (ops : List FileOp) : Prop :=
  ∃ k, FileOp.openTrunc pth ∈ ops.take k ∧ FileOp.writeData pth ∉ ops.take k

/-- C5 (counterexample): for the concrete user `"u1"` the persistence step
of `build_index` violates the atomic write-then-swap discipline — it
truncate-opens and writes both final paths directly, and after the first
operation the index file is truncated but not yet rewritten, so a concurrent
reader observes a half-written state. -/
theorem C5_counterexample :
    ¬ atomicSwapDiscipline [index_path "u1", meta_path "u1"] (persistOps "u1") ∧
      observesHalfWritten (index_path "u1") (persistOps "u1") := by
  constructor
  · intro h
    have := (h (index_path "u1") (by simp)).1
    simp [persistOps] at this
  · exact ⟨1, by simp [persistOps], by simp [persistOps]⟩

/-- C5 (amended claim theorem): persisting the index and its chunk metadata
is not atomic — for every user, `build_index` truncate-opens and writes both
final paths in place, performs no rename at all, and both files pass through
an observable half-written state. -/
theorem C5_amended (user_id : String) :
    FileOp.openTrunc (index_path user_id) ∈ persistOps user_id ∧
      FileOp.openTrunc (meta_path user_id) ∈ persistOps user_id ∧
      (∀ src dst, FileOp.rename src dst ∉ persistOps user_id) ∧
      observesHalfWritten (index_path user_id) (persistOps user_id) ∧
      observesHalfWritten (meta_path user_id) (persistOps user_id) := by
  refine ⟨by simp [persistOps], by simp [persistOps], ?_, ?_, ?_⟩
  · intro src dst
    simp [persistOps]
  · exact ⟨1, by simp [persistOps], by simp [persistOps]⟩
  · have hne : meta_path user_id ≠ index_path user_id := by
      intro h
      have hlen := congrArg String.length h
      simp [meta_path, index_path, String.length_append] at hlen
      exact absurd hlen (by decide)
    refine ⟨3, by simp [persistOps], ?_⟩
    simp [persistOps, hne]

/-! ## Booking dialogue state machine (`app.py`)

`st.session_state.booking_flow` is the session; `run_booking_flow` is the
per-turn transition.  External collaborators appear as an environment
(`date.today()`, `list_bookings()`, the `save_booking` outcome) and an
effect trace (the `save_booking` and `send_booking_email` calls issued
during the turn). -/

/-- A `datetime.date` as produced by a successful `strptime`. -/
structure PyDate where
  year : Nat
  month : Nat
  day : Nat
deriving DecidableEq

/-- Python `<` on dates (lexicographic on year, month, day). -/
def PyDate.isBefore (a b : PyDate) : Bool :=
  decide (a.year < b.year ∨ (a.year = b.year ∧
    (a.month < b.month ∨ (a.month = b.month ∧ a.day < b.day))))

/-- Python `str.strip()`: remove leading and trailing whitespace. -/
def pyStrip (s : String) : String :=
  String.mk (((s.data.dropWhile Char.isWhitespace).reverse.dropWhile
    Char.isWhitespace).reverse)

/-- Python `str.lower()` (ASCII model). -/
def pyLower (s : String) : String :=
  String.mk (s.data.map Char.toLower)

/-- Python `str.split(sep)` for a one-character separator. -/
def splitOnCharAux (c : Char) : List Char → List Char → List (List Char)
  | [], acc => [acc.reverse]
  | x :: xs, acc =>
    if x = c then acc.reverse :: splitOnCharAux c xs []
    else splitOnCharAux c xs (x :: acc)

def splitOnChar (c : Char) (s : String) : List String :=
  (splitOnCharAux c s.data []).map String.mk

/-- `int()` on a field the `strptime` digit regex matched: the decimal value
of a nonempty all-digit string. -/
def toNatDigits (s : String) : Option Nat :=
  if s.data ≠ [] ∧ s.data.all Char.isDigit then
    some (s.data.foldl (fun n c => n * 10 + (c.toNat - 48)) 0)
  else none

/-- Two-digit zero-padded rendering (`strftime` `%m`/`%d`/`%H`/`%M`, values
below 100 in every validated use). -/
def pad2 (n : Nat) : String :=
  String.mk [Char.ofNat (48 + n / 10 % 10), Char.ofNat (48 + n % 10)]

/-- Four-digit zero-padded rendering (`%Y`, years at most 9999). -/
def pad4 (n : Nat) : String :=
  String.mk [Char.ofNat (48 + n / 1000 % 10), Char.ofNat (48 + n / 100 % 10),
    Char.ofNat (48 + n / 10 % 10), Char.ofNat (48 + n % 10)]

/-- `date.isoformat()` / `str(date)` / `strftime("%Y-%m-%d")`. -/
def PyDate.isoformat (d : PyDate) : String :=
  pad4 d.year ++ "-" ++ pad2 d.month ++ "-" ++ pad2 d.day

def isLeap (y : Nat) : Bool :=
  decide ((y % 4 = 0 ∧ y % 100 ≠ 0) ∨ y % 400 = 0)

def daysInMonth (y m : Nat) : Nat :=
  if m = 2 then (if isLeap y then 29 else 28)
  else if m = 4 ∨ m = 6 ∨ m = 9 ∨ m = 11 then 30
  else 31

/-- The `datetime.date(y, m, d)` constructor validation performed by
`strptime`: year 1–9999, month 1–12, day valid for the month. -/
def mkDate (y m d : Nat) : Option PyDate :=
  if 1 ≤ y ∧ y ≤ 9999 ∧ 1 ≤ m ∧ m ≤ 12 ∧ 1 ≤ d ∧ d ≤ daysInMonth y m then
    some ⟨y, m, d⟩
  else none

/-- A numeric field of a `strptime` pattern: all decimal digits, between
`lo` and `hi` characters wide (CPython uses `\d\d\d\d` for `%Y` and
`\d\x7b1,2\x7d` for `%m`, `%d`, `%H`, `%M`, `%S`). -/
def numField (lo hi : Nat) (s : String) : Option Nat :=
  if lo ≤ s.length ∧ s.length ≤ hi then toNatDigits s else none

/-- `strptime(txt, "%Y-%m-%d")`. -/
def parseYMD (txt : String) : Option PyDate :=
  match splitOnChar '-' txt with
  | [ys, ms, ds] =>
    match numField 4 4 ys, numField 1 2 ms, numField 1 2 ds with
    | some y, some m, some d => mkDate y m d
    | _, _, _ => none
  | _ => none

/-- `strptime(txt, "%d-%m-%Y")`. -/
def parseDMYdash (txt : String) : Option PyDate :=
  match splitOnChar '-' txt with
  | [ds, ms, ys] =>
    match numField 1 2 ds, numField 1 2 ms, numField 4 4 ys with
    | some d, some m, some y => mkDate y m d
    | _, _, _ => none
  | _ => none

/-- `strptime(txt, "%d/%m/%Y")`. -/
def parseDMYslash (txt : String) : Option PyDate :=
  match splitOnChar '/' txt with
  | [ds, ms, ys] =>
    match numField 1 2 ds, numField 1 2 ms, numField 4 4 ys with
    | some d, some m, some y => mkDate y m d
    | _, _, _ => none
  | _ => none

/-- `parse_date_from_text`: strip, then try `%Y-%m-%d`, `%d-%m-%Y`,
`%d/%m/%Y` in order. -/
def parse_date_from_text (txt : String) : Option PyDate :=
  let t := pyStrip txt
  match parseYMD t with
  | some d => some d
  | none =>
    match parseDMYdash t with
    | some d => some d
    | none => parseDMYslash t

/-- `strptime(txt, "%H:%M")` followed by `.time().strftime("%H:%M")`. -/
def parseHM (txt : String) : Option String :=
  match splitOnChar ':' txt with
  | [hs, ms] =>
    match numField 1 2 hs, numField 1 2 ms with
    | some h, some m =>
      if h ≤ 23 ∧ m ≤ 59 then some (pad2 h ++ ":" ++ pad2 m) else none
    | _, _ => none
  | _ => none

/-- `strptime(txt, "%H:%M:%S")` followed by `.time().strftime("%H:%M")`. -/
def parseHMS (txt : String) : Option String :=
  match splitOnChar ':' txt with
  | [hs, ms, ss] =>
    match numField 1 2 hs, numField 1 2 ms, numField 1 2 ss with
    | some h, some m, some s =>
      if h ≤ 23 ∧ m ≤ 59 ∧ s ≤ 59 then some (pad2 h ++ ":" ++ pad2 m)
      else none
    | _, _, _ => none
  | _ => none

/-- `parse_time_from_text`: strip, then try `%H:%M`, `%H:%M:%S` in order;
the normalised `HH:MM` string is returned. -/
def parse_time_from_text (txt : String) : Option String :=
  let t := pyStrip txt
  match parseHM t with
  | some r => some r
  | none => parseHMS t

/-- One row of `list_bookings()`; `.get` on a possibly missing key is an
`Option`. -/
structure BookingRow where
  appt_date : Option String
  appt_time : Option String
  status : Option String
deriving DecidableEq

/-- `has_booking_conflict`: some fetched booking has the same ISO date, the
same time string, and a status other than `'Cancelled'`. -/
def has_booking_conflict (bookings : List BookingRow) (appt_date : PyDate)
    (appt_time : String) : Bool :=
  bookings.any (fun b =>
    decide (b.appt_date = some appt_date.isoformat ∧
      b.appt_time = some appt_time ∧ b.status ≠ some "Cancelled"))

/-- The authenticated user dict: `user.get("phone")` is `none` when the key
is absent (as it is for every dict built by `authenticate`). -/
structure UserProfile where
  id : String
  name : String
  email : String
  phone : Option String

/-- The `slots` dict of the session. -/
structure Slots where
  name : Option String
  email : Option String
  phone : Option String
  booking_type : Option String
  date : Option PyDate
  time : Option String
deriving DecidableEq

/-- The `st.session_state.booking_flow` dict. -/
structure BookingFlow where
  active : Bool
  slots : Slots
  awaiting_field : Option String
  booking_id : Option Nat
deriving DecidableEq

/-- `reset_booking_flow` / the initial session of `init_session_state`. -/
def reset_booking_flow : BookingFlow :=
  { active := false,
    slots := { name := none, email := none, phone := none,
               booking_type := none, date := none, time := none },
    awaiting_field := none,
    booking_id := none }

/-- Python truthiness of an optional string (`if not slots["phone"]`):
`None` and `""` are falsy. -/
def pyTruthy (s : Option String) : Bool :=
  match s with
  | none => false
  | some t => decide (t ≠ "")

/-- An optional value rendered into an f-string (`None` prints as
`"None"`). -/
def optStr (o : Option String) : String :=
  match o with
  | none => "None"
  | some s => s

/-- `"".join(ch for ch in msg if ch.isdigit())`. -/
def digitsOnly (s : String) : String :=
  String.mk (s.toList.filter Char.isDigit)

/-- The calls `run_booking_flow` issues to external collaborators during one
turn, in order. -/
inductive Effect where
  | saveBooking (user_id : String) (date : PyDate) (time reason : String)
      (booking_type : Option String)
  | sendEmail (to_email customer_name : Option String) (appt_date : PyDate)
      (appt_time : String) (booking_id : Nat) (booking_type : Option String)
deriving DecidableEq

/-- The ambient world of one turn: `date.today()`, the rows `list_bookings()`
returns, and the outcome of `save_booking` (`Except.error` when the call
raises, otherwise the returned id or `None`). -/
structure Env where
  today : PyDate
  bookings : List BookingRow
  saveResult : Except Unit (Option Nat)

/-- `summarize_booking_and_ask_confirm`. -/
def summarize_booking_and_ask_confirm (slots : Slots) : String :=
  "Here are your booking details:\n\n" ++
  "• Name: **" ++ optStr slots.name ++ "**\n" ++
  "• Email: **" ++ optStr slots.email ++ "**\n" ++
  "• Phone: **" ++ (if pyTruthy slots.phone then optStr slots.phone
                    else "Not provided yet") ++ "**\n" ++
  "• Type: **" ++ optStr slots.booking_type ++ "**\n" ++
  "• Date: **" ++ (slots.date.getD ⟨1, 1, 1⟩).isoformat ++ "**\n" ++
  "• Time: **" ++ optStr slots.time ++ "**\n\n" ++
  "Please confirm to proceed:\n" ++
  "- Reply **yes** to confirm and save the booking\n" ++
  "- Reply **no** to cancel"

/-- `run_booking_flow(user_message, user)`: returns the new session, the
reply, and the trace of external calls.  `slots.date.getD ⟨1,1,1⟩` stands
for the raw `slots["date"]` object in branches where the source would have
crashed on `None` (those branches are unreachable from reachable
sessions). -/
def run_booking_flow (env : Env) (user_message : String) (user : UserProfile)
    (bf : BookingFlow) : BookingFlow × String × List Effect :=
  if bf.active = false then
    ({ active := true,
       slots := { bf.slots with
         name := some user.name,
         email := some user.email,
         phone := user.phone },
       awaiting_field := some "booking_type",
       booking_id := bf.booking_id },
     "Great! Let's book an appointment. 🗓️\n\n" ++
       "What type of booking is this? (e.g., 'Root canal', 'Check-up', 'Cleaning')",
     [])
  else
    let field := bf.awaiting_field
    let msg := pyStrip user_message
    if field = some "booking_type" then
      ({ bf with slots := { bf.slots with booking_type := some msg },
                 awaiting_field := some "date" },
       "Got it: **" ++ msg ++ "**.\n\n" ++
         "Please enter your preferred *date* in format `YYYY-MM-DD`.",
       [])
    else if field = some "date" then
      match parse_date_from_text msg with
      | none =>
        (bf, "I couldn't understand that date. Please enter date as `YYYY-MM-DD`.", [])
      | some parsed =>
        if parsed.isBefore env.today then
          (bf, "The date seems to be in the past. Please enter a future date in `YYYY-MM-DD`.", [])
        else
          ({ bf with slots := { bf.slots with date := some parsed },
                     awaiting_field := some "time" },
           "Thanks! Now enter your preferred time in 24h format `HH:MM`.", [])
    else if field = some "time" then
      match parse_time_from_text msg with
      | none =>
        (bf, "I couldn't understand that time. Please enter time as `HH:MM` (24-hour).", [])
      | some parsed =>
        if has_booking_conflict env.bookings (bf.slots.date.getD ⟨1, 1, 1⟩) parsed then
          (bf, "Sorry, the slot at " ++ parsed ++ " on " ++
            (bf.slots.date.getD ⟨1, 1, 1⟩).isoformat ++
            " is already booked. Please choose a different time.", [])
        else
          let slots1 := { bf.slots with time := some parsed }
          if pyTruthy slots1.phone = false then
            ({ bf with slots := slots1, awaiting_field := some "phone" },
             "Please share your phone number (digits only).", [])
          else
            ({ bf with slots := slots1, awaiting_field := some "confirm" },
             summarize_booking_and_ask_confirm slots1, [])
    else if field = some "phone" then
      let digits := digitsOnly msg
      if digits.length < 7 then
        (bf, "That doesn't look like a valid phone number. Please re-enter.", [])
      else
        let slots1 := { bf.slots with phone := some digits }
        ({ bf with slots := slots1, awaiting_field := some "confirm" },
         summarize_booking_and_ask_confirm slots1, [])
    else if field = some "confirm" then
      if pyLower msg ∈ (["yes", "y", "confirm"] : List String) then
        let d := bf.slots.date.getD ⟨1, 1, 1⟩
        let t := optStr bf.slots.time
        let save := Effect.saveBooking user.id d t
          (optStr bf.slots.booking_type ++ " (via chatbot)") bf.slots.booking_type
        match env.saveResult with
        | Except.error _ =>
          (reset_booking_flow, "An error occurred while processing your booking.", [save])
        | Except.ok none =>
          (reset_booking_flow,
           "Something went wrong while saving your booking. Please try again later.", [save])
        | Except.ok (some booking_id) =>
          if booking_id ≠ 0 then
            (reset_booking_flow,
             "✅ Your booking is confirmed!\n\n• Booking ID: **" ++ toString booking_id ++
               "**\n• Date: " ++ d.isoformat ++ "\n• Time: " ++ t ++
               "\n\nI've also emailed you the confirmation. Anything else I can help you with?",
             [save, Effect.sendEmail bf.slots.email bf.slots.name d t booking_id
               bf.slots.booking_type])
          else
            (reset_booking_flow,
             "Something went wrong while saving your booking. Please try again later.", [save])
      else if pyLower msg ∈ (["no", "n", "cancel"] : List String) then
        (reset_booking_flow,
         "Okay, I've cancelled this booking request. Let me know if you'd like to start again.", [])
      else
        (bf, "Please reply with **yes** to confirm or **no** to cancel.", [])
    else
      (bf, "I'm not sure which detail we're on. Let's start over. Say something like *'I want to book an appointment'*.", [])

/-- C10 (claim theorem): a turn arriving while the flow is inactive
activates it, pre-fills name, email and phone from the user profile, sets
`awaiting_field` to `booking_type`, returns the booking-type prompt and no
external calls, stores nothing of the triggering message in any slot (the
result does not depend on the message at all), and the booking type is
taken from the following turn's message. -/
theorem C10_activation (env : Env) (msg msg2 : String) (user : UserProfile)
    (bf : BookingFlow) (hina : bf.active = false) :
    let r := run_booking_flow env msg user bf
    r.1.active = true ∧
      r.1.awaiting_field = some "booking_type" ∧
      r.1.slots.name = some user.name ∧
      r.1.slots.email = some user.email ∧
      r.1.slots.phone = user.phone ∧
      r.1.slots.booking_type = bf.slots.booking_type ∧
      r.1.slots.date = bf.slots.date ∧
      r.1.slots.time = bf.slots.time ∧
      r.2.1 = "Great! Let's book an appointment. 🗓️\n\n" ++
        "What type of booking is this? (e.g., 'Root canal', 'Check-up', 'Cleaning')" ∧
      r.2.2 = [] ∧
      run_booking_flow env msg user bf = run_booking_flow env msg2 user bf ∧
      ∀ env2 m2, (run_booking_flow env2 m2 user r.1).1.slots.booking_type =
        some (pyStrip m2) := by
  have hr : ∀ m : String, run_booking_flow env m user bf =
      ({ active := true,
         slots := { bf.slots with
           name := some user.name,
           email := some user.email,
           phone := user.phone },
         awaiting_field := some "booking_type",
         booking_id := bf.booking_id },
       "Great! Let's book an appointment. 🗓️\n\n" ++
         "What type of booking is this? (e.g., 'Root canal', 'Check-up', 'Cleaning')",
       []) := by
    intro m
    unfold run_booking_flow
    rw [if_pos hina]
  refine ⟨?_, ?_, ?_, ?_, ?_, ?_, ?_, ?_, ?_, ?_, ?_, ?_⟩ <;>
    simp only [hr]
  · intro env2 m2
    unfold run_booking_flow
    simp

theorem C10_activation_witness :
    ((reset_booking_flow).active = false) ∧
      (run_booking_flow ⟨⟨2025, 1, 1⟩, [], Except.ok (some 1)⟩ "hello"
          ⟨"u1", "Ana", "a@b.c", none⟩ reset_booking_flow).1.awaiting_field =
        some "booking_type" :=
  ⟨rfl,
    (C10_activation ⟨⟨2025, 1, 1⟩, [], Except.ok (some 1)⟩ "hello" "other"
        ⟨"u1", "Ana", "a@b.c", none⟩ reset_booking_flow rfl).2.1⟩

/-- C1 (counterexample): in an active session awaiting the booking type,
the message `"cancel"` does not cancel: the session stays active and the
word is stored as the booking type; `"stop"` and `"exit"` likewise leave
the session active (at the date state they are merely rejected as
unparseable dates). -/
theorem C1_counterexample :
    (run_booking_flow ⟨⟨2025, 1, 1⟩, [], Except.ok (some 1)⟩ "cancel"
          ⟨"u1", "Ana", "a@b.c", none⟩
          { active := true,
            slots := { name := some "Ana", email := some "a@b.c", phone := none,
                       booking_type := none, date := none, time := none },
            awaiting_field := some "booking_type", booking_id := none }).1.active = true ∧
      (run_booking_flow ⟨⟨2025, 1, 1⟩, [], Except.ok (some 1)⟩ "cancel"
          ⟨"u1", "Ana", "a@b.c", none⟩
          { active := true,
            slots := { name := some "Ana", email := some "a@b.c", phone := none,
                       booking_type := none, date := none, time := none },
            awaiting_field := some "booking_type", booking_id := none }).1.slots.booking_type =
        some "cancel" ∧
      (run_booking_flow ⟨⟨2025, 1, 1⟩, [], Except.ok (some 1)⟩ "stop"
          ⟨"u1", "Ana", "a@b.c", none⟩
          { active := true,
            slots := { name := some "Ana", email := some "a@b.c", phone := none,
                       booking_type := some "Cleaning", date := none, time := none },
            awaiting_field := some "date", booking_id := none }).1.active = true ∧
      (run_booking_flow ⟨⟨2025, 1, 1⟩, [], Except.ok (some 1)⟩ "exit"
          ⟨"u1", "Ana", "a@b.c", none⟩
          { active := true,
            slots := { name := some "Ana", email := some "a@b.c", phone := none,
                       booking_type := some "Cleaning", date := none, time := none },
            awaiting_field := some "date", booking_id := none }).1.active = true := by
  exact ⟨rfl, rfl, rfl, rfl⟩

/-- C1 (amended claim theorem): cancel keywords are honoured only in the
confirm state, and only as `"cancel"` (together with the no-synonyms
`"no"`/`"n"`, case-insensitively): there such a message resets every slot to
null, `active` to false and `awaiting_field` to none, with no external
call.  In the collecting states the cancel keywords are treated as ordinary
field input, and `"stop"`/`"exit"` are nowhere cancel keywords. -/
theorem C1_amended (env : Env) (user : UserProfile) (bf : BookingFlow)
    (msg : String) (hact : bf.active = true)
    (hawait : bf.awaiting_field = some "confirm")
    (hno : pyLower (pyStrip msg) ∈ (["no", "n", "cancel"] : List String)) :
    run_booking_flow env msg user bf =
      (reset_booking_flow,
       "Okay, I've cancelled this booking request. Let me know if you'd like to start again.",
       []) := by
  have hnotyes : pyLower (pyStrip msg) ∉ (["yes", "y", "confirm"] : List String) := by
    simp only [List.mem_cons, List.not_mem_nil, or_false] at hno
    rcases hno with h | h | h <;> simp [h]
  unfold run_booking_flow
  rw [if_neg (by simp [hact])]
  simp [hawait, hno, hnotyes]

theorem C1_amended_witness :
    (pyLower (pyStrip "CANCEL") ∈ (["no", "n", "cancel"] : List String)) ∧
      run_booking_flow ⟨⟨2025, 1, 1⟩, [], Except.ok (some 1)⟩ "CANCEL"
          ⟨"u1", "Ana", "a@b.c", none⟩
          { active := true,
            slots := { name := some "Ana", email := some "a@b.c",
                       phone := some "1234567", booking_type := some "Cleaning",
                       date := some ⟨2999, 1, 1⟩, time := some "09:00" },
            awaiting_field := some "confirm", booking_id := none } =
        (reset_booking_flow,
         "Okay, I've cancelled this booking request. Let me know if you'd like to start again.",
         []) :=
  ⟨by decide,
    C1_amended ⟨⟨2025, 1, 1⟩, [], Except.ok (some 1)⟩ ⟨"u1", "Ana", "a@b.c", none⟩
      { active := true,
        slots := { name := some "Ana", email := some "a@b.c",
                   phone := some "1234567", booking_type := some "Cleaning",
                   date := some ⟨2999, 1, 1⟩, time := some "09:00" },
        awaiting_field := some "confirm", booking_id := none }
      "CANCEL" rfl rfl (by decide)⟩

/-- C2 (claim theorem): a yes answer in the confirm state issues exactly one
`save_booking` call carrying the finalized slots; if the commit returns a
(positive) booking id the machine issues exactly one `send_booking_email`
call with the same data; if the commit returns `None` or raises, it sends no
email and replies with a generic failure message; in every outcome the
session is reset to the inactive state with no partial booking left. -/
theorem C2_confirm_commit (env : Env) (user : UserProfile) (bf : BookingFlow)
    (msg : String) (hact : bf.active = true)
    (hawait : bf.awaiting_field = some "confirm")
    (hyes : pyLower (pyStrip msg) ∈ (["yes", "y", "confirm"] : List String)) :
    (run_booking_flow env msg user bf).1 = reset_booking_flow ∧
      (∀ id, env.saveResult = Except.ok (some id) → 0 < id →
        (run_booking_flow env msg user bf).2.2 =
          [Effect.saveBooking user.id (bf.slots.date.getD ⟨1, 1, 1⟩)
             (optStr bf.slots.time)
             (optStr bf.slots.booking_type ++ " (via chatbot)") bf.slots.booking_type,
           Effect.sendEmail bf.slots.email bf.slots.name
             (bf.slots.date.getD ⟨1, 1, 1⟩) (optStr bf.slots.time) id
             bf.slots.booking_type]) ∧
      (env.saveResult = Except.ok none →
        (run_booking_flow env msg user bf).2.2 =
            [Effect.saveBooking user.id (bf.slots.date.getD ⟨1, 1, 1⟩)
               (optStr bf.slots.time)
               (optStr bf.slots.booking_type ++ " (via chatbot)") bf.slots.booking_type] ∧
          (run_booking_flow env msg user bf).2.1 =
            "Something went wrong while saving your booking. Please try again later.") ∧
      (∀ e, env.saveResult = Except.error e →
        (run_booking_flow env msg user bf).2.2 =
            [Effect.saveBooking user.id (bf.slots.date.getD ⟨1, 1, 1⟩)
               (optStr bf.slots.time)
               (optStr bf.slots.booking_type ++ " (via chatbot)") bf.slots.booking_type] ∧
          (run_booking_flow env msg user bf).2.1 =
            "An error occurred while processing your booking.") := by
  refine ⟨?_, ?_, ?_, ?_⟩
  · rcases henv : env.saveResult with e | o
    · simp [run_booking_flow, hact, hawait, hyes, henv]
    · rcases o with _ | id
      · simp [run_booking_flow, hact, hawait, hyes, henv]
      · by_cases hid : id = 0 <;>
          simp [run_booking_flow, hact, hawait, hyes, henv, hid]
  · intro id henv hid
    have hid' : id ≠ 0 := Nat.pos_iff_ne_zero.mp hid
    simp [run_booking_flow, hact, hawait, hyes, henv, hid']
  · intro henv
    constructor <;> simp [run_booking_flow, hact, hawait, hyes, henv]
  · intro e henv
    constructor <;> simp [run_booking_flow, hact, hawait, hyes, henv]

theorem C2_confirm_commit_witness :
    (pyLower (pyStrip "yes") ∈ (["yes", "y", "confirm"] : List String)) ∧
      (run_booking_flow ⟨⟨2025, 1, 1⟩, [], Except.ok (some 5)⟩ "yes"
          ⟨"u1", "Ana", "a@b.c", none⟩
          { active := true,
            slots := { name := some "Ana", email := some "a@b.c",
                       phone := some "1234567", booking_type := some "Cleaning",
                       date := some ⟨2999, 1, 1⟩, time := some "09:00" },
            awaiting_field := some "confirm", booking_id := none }).1 =
        reset_booking_flow :=
  ⟨by decide,
    (C2_confirm_commit ⟨⟨2025, 1, 1⟩, [], Except.ok (some 5)⟩
        ⟨"u1", "Ana", "a@b.c", none⟩
        { active := true,
          slots := { name := some "Ana", email := some "a@b.c",
                     phone := some "1234567", booking_type := some "Cleaning",
                     date := some ⟨2999, 1, 1⟩, time := some "09:00" },
          awaiting_field := some "confirm", booking_id := none }
        "yes" rfl rfl (by decide)).1⟩

/-- C8 (claim theorem): with a validly formatted time `t` at the time state,
`has_booking_conflict` reports a conflict exactly when some fetched booking
has the same ISO date, the same time, and a status other than `'Cancelled'`;
on a conflict the turn leaves the session unchanged (still awaiting the
time, the time slot still null) and the rejection message names the
conflicting time and date. -/
theorem C8_conflict (env : Env) (user : UserProfile) (bf : BookingFlow)
    (user_message : String) (d : PyDate) (t : String)
    (hact : bf.active = true) (hawait : bf.awaiting_field = some "time")
    (hdate : bf.slots.date = some d) (htime : bf.slots.time = none)
    (hparse : parse_time_from_text (pyStrip user_message) = some t) :
    (has_booking_conflict env.bookings d t = true ↔
      ∃ b ∈ env.bookings, b.appt_date = some d.isoformat ∧
        b.appt_time = some t ∧ b.status ≠ some "Cancelled") ∧
      (has_booking_conflict env.bookings d t = true →
        run_booking_flow env user_message user bf =
            (bf, "Sorry, the slot at " ++ t ++ " on " ++ d.isoformat ++
              " is already booked. Please choose a different time.", []) ∧
          (run_booking_flow env user_message user bf).1.awaiting_field = some "time" ∧
          (run_booking_flow env user_message user bf).1.slots.time = none ∧
          ∃ pre mid post, (run_booking_flow env user_message user bf).2.1 =
            pre ++ t ++ mid ++ d.isoformat ++ post) := by
  constructor
  · simp [has_booking_conflict, List.any_eq_true]
  · intro hconf
    have hrun : run_booking_flow env user_message user bf =
        (bf, "Sorry, the slot at " ++ t ++ " on " ++ d.isoformat ++
          " is already booked. Please choose a different time.", []) := by
      simp [run_booking_flow, hact, hawait, hparse, hdate, hconf]
    refine ⟨hrun, ?_, ?_, ?_⟩
    · rw [hrun]; exact hawait
    · rw [hrun]; exact htime
    · exact ⟨"Sorry, the slot at ", " on ",
        " is already booked. Please choose a different time.", by rw [hrun]⟩

theorem C8_conflict_witness :
    ((({ active := true,
         slots := { name := some "Ana", email := some "a@b.c", phone := none,
                    booking_type := some "Cleaning", date := some ⟨2999, 1, 1⟩,
                    time := none },
         awaiting_field := some "time", booking_id := none } : BookingFlow)).slots.date =
        some ⟨2999, 1, 1⟩) ∧
      (parse_time_from_text (pyStrip "09:00") = some "09:00") ∧
      (has_booking_conflict [⟨some "2999-01-01", some "09:00", some "Pending"⟩]
          ⟨2999, 1, 1⟩ "09:00" = true ↔
        ∃ b ∈ ([⟨some "2999-01-01", some "09:00", some "Pending"⟩] : List BookingRow),
          b.appt_date = some (PyDate.isoformat ⟨2999, 1, 1⟩) ∧
            b.appt_time = some "09:00" ∧ b.status ≠ some "Cancelled") :=
  ⟨rfl, by decide,
    (C8_conflict ⟨⟨2025, 1, 1⟩, [⟨some "2999-01-01", some "09:00", some "Pending"⟩],
        Except.ok (some 1)⟩
      ⟨"u1", "Ana", "a@b.c", none⟩
      { active := true,
        slots := { name := some "Ana", email := some "a@b.c", phone := none,
                   booking_type := some "Cleaning", date := some ⟨2999, 1, 1⟩,
                   time := none },
        awaiting_field := some "time", booking_id := none }
      "09:00" ⟨2999, 1, 1⟩ "09:00" rfl rfl rfl rfl (by decide)).1⟩

/-! ## C7: the slot-filling invariant -/

/-- The first slot of the filling order `booking_type, date, time, phone`
that is still null, if any. -/
def firstNullField (s : Slots) : Option String :=
  if s.booking_type = none then some "booking_type"
  else if s.date = none then some "date"
  else if s.time = none then some "time"
  else if s.phone = none then some "phone"
  else none

/-- All slots required before confirmation are non-null. -/
def allRequiredSet (s : Slots) : Prop :=
  s.name ≠ none ∧ s.email ≠ none ∧ s.phone ≠ none ∧
    s.booking_type ≠ none ∧ s.date ≠ none ∧ s.time ≠ none

/-- A phone slot is either absent or a nonempty string (as produced by the
digit validation, or by a profile whose phone field is absent or
nonempty). -/
def phoneSlotOk (p : Option String) : Prop :=
  p = none ∨ ∃ s, p = some s ∧ s ≠ ""

/-- The sessions of one user: the reset state, closed under turns with an
arbitrary environment and message. -/
inductive Reachable (user : UserProfile) : BookingFlow → Prop
  | init : Reachable user reset_booking_flow
  | step (env : Env) (msg : String) (bf : BookingFlow) :
      Reachable user bf → Reachable user (run_booking_flow env msg user bf).1

/-- The inductive invariant of the booking flow: inactive sessions carry no
collected slots, and active sessions have the slots filled as a prefix of
the filling order, with `awaiting_field` pointing at the boundary. -/
def Inv (bf : BookingFlow) : Prop :=
  (bf.active = false ∧ bf.slots.booking_type = none ∧ bf.slots.date = none ∧
    bf.slots.time = none) ∨
  (bf.active = true ∧ bf.slots.name ≠ none ∧ bf.slots.email ≠ none ∧
    phoneSlotOk bf.slots.phone ∧
    ((bf.awaiting_field = some "booking_type" ∧ bf.slots.booking_type = none ∧
        bf.slots.date = none ∧ bf.slots.time = none) ∨
     (bf.awaiting_field = some "date" ∧ bf.slots.booking_type ≠ none ∧
        bf.slots.date = none ∧ bf.slots.time = none) ∨
     (bf.awaiting_field = some "time" ∧ bf.slots.booking_type ≠ none ∧
        bf.slots.date ≠ none ∧ bf.slots.time = none) ∨
     (bf.awaiting_field = some "phone" ∧ bf.slots.booking_type ≠ none ∧
        bf.slots.date ≠ none ∧ bf.slots.time ≠ none ∧ bf.slots.phone = none) ∨
     (bf.awaiting_field = some "confirm" ∧ bf.slots.booking_type ≠ none ∧
        bf.slots.date ≠ none ∧ bf.slots.time ≠ none ∧ bf.slots.phone ≠ none)))

theorem Inv_step (env : Env) (msg : String) (user : UserProfile)
    (huser : ∀ s, user.phone = some s → s ≠ "") (bf : BookingFlow)
    (h : Inv bf) : Inv (run_booking_flow env msg user bf).1 := by
  rcases h with ⟨hina, hbt, hd, ht⟩ | ⟨hact, hname, hemail, hphone, hst⟩
  · -- activation turn
    have hrun : (run_booking_flow env msg user bf).1 =
        { active := true,
          slots := { bf.slots with
            name := some user.name,
            email := some user.email,
            phone := user.phone },
          awaiting_field := some "booking_type",
          booking_id := bf.booking_id } := by
      unfold run_booking_flow
      rw [if_pos hina]
    rw [hrun]
    right
    refine ⟨rfl, by simp, by simp, ?_, Or.inl ⟨rfl, by simpa using hbt,
      by simpa using hd, by simpa using ht⟩⟩
    rcases hu : user.phone with _ | s
    · exact Or.inl (by simp)
    · exact Or.inr ⟨s, by simp, huser s hu⟩
  · have hInvBf : Inv bf := Or.inr ⟨hact, hname, hemail, hphone, hst⟩
    rcases hst with ⟨hf, h1, h2, h3⟩ | ⟨hf, h1, h2, h3⟩ | ⟨hf, h1, h2, h3⟩ |
      ⟨hf, h1, h2, h3, h4⟩ | ⟨hf, h1, h2, h3, h4⟩
    · -- awaiting booking_type
      have hrun : (run_booking_flow env msg user bf).1 =
          { bf with
            slots := { bf.slots with booking_type := some (pyStrip msg) },
            awaiting_field := some "date" } := by
        simp [run_booking_flow, hact, hf]
      rw [hrun]
      right
      exact ⟨by simp [hact], by simpa using hname, by simpa using hemail,
        by simpa using hphone,
        Or.inr (Or.inl ⟨rfl, by simp, by simpa using h2, by simpa using h3⟩)⟩
    · -- awaiting date
      rcases hp : parse_date_from_text (pyStrip msg) with _ | parsed
      · have hrun : (run_booking_flow env msg user bf).1 = bf := by
          simp [run_booking_flow, hact, hf, hp]
        rw [hrun]; exact hInvBf
      · by_cases hb : parsed.isBefore env.today
        · have hrun : (run_booking_flow env msg user bf).1 = bf := by
            simp [run_booking_flow, hact, hf, hp, hb]
          rw [hrun]; exact hInvBf
        · have hrun : (run_booking_flow env msg user bf).1 =
              { bf with
                slots := { bf.slots with date := some parsed },
                awaiting_field := some "time" } := by
            simp [run_booking_flow, hact, hf, hp, hb]
          rw [hrun]
          right
          exact ⟨by simp [hact], by simpa using hname, by simpa using hemail,
            by simpa using hphone,
            Or.inr (Or.inr (Or.inl ⟨rfl, by simpa using h1, by simp,
              by simpa using h3⟩))⟩
    · -- awaiting time
      rcases hp : parse_time_from_text (pyStrip msg) with _ | parsed
      · have hrun : (run_booking_flow env msg user bf).1 = bf := by
          simp [run_booking_flow, hact, hf, hp]
        rw [hrun]; exact hInvBf
      · by_cases hc : has_booking_conflict env.bookings
            (bf.slots.date.getD ⟨1, 1, 1⟩) parsed
        · have hrun : (run_booking_flow env msg user bf).1 = bf := by
            simp [run_booking_flow, hact, hf, hp, hc]
          rw [hrun]; exact hInvBf
        · by_cases hph : pyTruthy bf.slots.phone
          · have hrun : (run_booking_flow env msg user bf).1 =
                { bf with
                  slots := { bf.slots with time := some parsed },
                  awaiting_field := some "confirm" } := by
              simp [run_booking_flow, hact, hf, hp, hc, hph]
            rw [hrun]
            right
            have hpne : bf.slots.phone ≠ none := by
              intro hcon
              rw [hcon] at hph
              simp [pyTruthy] at hph
            exact ⟨by simp [hact], by simpa using hname, by simpa using hemail,
              by simpa using hphone,
              Or.inr (Or.inr (Or.inr (Or.inr ⟨rfl, by simpa using h1,
                by simpa using h2, by simp, by simpa using hpne⟩)))⟩
          · have hrun : (run_booking_flow env msg user bf).1 =
                { bf with
                  slots := { bf.slots with time := some parsed },
                  awaiting_field := some "phone" } := by
              simp [run_booking_flow, hact, hf, hp, hc, hph]
            rw [hrun]
            right
            have hpe : bf.slots.phone = none := by
              rcases hphone with hp0 | ⟨s, hs, hsne⟩
              · exact hp0
              · rw [hs] at hph
                simp [pyTruthy, hsne] at hph
            exact ⟨by simp [hact], by simpa using hname, by simpa using hemail,
              by simpa using hphone,
              Or.inr (Or.inr (Or.inr (Or.inl ⟨rfl, by simpa using h1,
                by simpa using h2, by simp, by simpa using hpe⟩)))⟩
    · -- awaiting phone
      by_cases hlen : (digitsOnly (pyStrip msg)).length < 7
      · have hrun : (run_booking_flow env msg user bf).1 = bf := by
          simp [run_booking_flow, hact, hf, hlen]
        rw [hrun]; exact hInvBf
      · have hrun : (run_booking_flow env msg user bf).1 =
            { bf with
              slots := { bf.slots with phone := some (digitsOnly (pyStrip msg)) },
              awaiting_field := some "confirm" } := by
          simp [run_booking_flow, hact, hf, hlen]
        rw [hrun]
        right
        have hdig : digitsOnly (pyStrip msg) ≠ "" := by
          intro hcon
          rw [hcon] at hlen
          simp at hlen
        refine ⟨by simp [hact], by simpa using hname, by simpa using hemail,
          Or.inr ⟨digitsOnly (pyStrip msg), by simp, hdig⟩,
          Or.inr (Or.inr (Or.inr (Or.inr ⟨rfl, by simpa using h1,
            by simpa using h2, by simpa using h3, by simp⟩)))⟩
    · -- awaiting confirm
      by_cases hy : pyLower (pyStrip msg) ∈ (["yes", "y", "confirm"] : List String)
      · rcases henv : env.saveResult with e | o
        · have hrun : (run_booking_flow env msg user bf).1 = reset_booking_flow := by
            simp [run_booking_flow, hact, hf, hy, henv]
          rw [hrun]; exact Or.inl ⟨rfl, rfl, rfl, rfl⟩
        · rcases o with _ | id
          · have hrun : (run_booking_flow env msg user bf).1 = reset_booking_flow := by
              simp [run_booking_flow, hact, hf, hy, henv]
            rw [hrun]; exact Or.inl ⟨rfl, rfl, rfl, rfl⟩
          · by_cases hid : id = 0
            · have hrun : (run_booking_flow env msg user bf).1 = reset_booking_flow := by
                simp [run_booking_flow, hact, hf, hy, henv, hid]
              rw [hrun]; exact Or.inl ⟨rfl, rfl, rfl, rfl⟩
            · have hrun : (run_booking_flow env msg user bf).1 = reset_booking_flow := by
                simp [run_booking_flow, hact, hf, hy, henv, hid]
              rw [hrun]; exact Or.inl ⟨rfl, rfl, rfl, rfl⟩
      · by_cases hn : pyLower (pyStrip msg) ∈ (["no", "n", "cancel"] : List String)
        · have hrun : (run_booking_flow env msg user bf).1 = reset_booking_flow := by
            simp [run_booking_flow, hact, hf, hy, hn]
          rw [hrun]; exact Or.inl ⟨rfl, rfl, rfl, rfl⟩
        · have hrun : (run_booking_flow env msg user bf).1 = bf := by
            simp [run_booking_flow, hact, hf, hy, hn]
          rw [hrun]; exact hInvBf

theorem reachable_inv (user : UserProfile)
    (huser : ∀ s, user.phone = some s → s ≠ "") (bf : BookingFlow)
    (h : Reachable user bf) : Inv bf := by
  induction h with
  | init => exact Or.inl ⟨rfl, rfl, rfl, rfl⟩
  | step env msg bf0 _ ih => exact Inv_step env msg user huser bf0 ih

/-- C7 (claim theorem): in every reachable session of a user whose profile
phone is absent or nonempty (as `authenticate` produces), while the flow is
active `awaiting_field` is the first slot of the filling order
`booking_type, date, time, phone` that is still null — except in the
confirm state, where all required slots are non-null. -/
theorem C7_invariant (user : UserProfile)
    (huser : ∀ s, user.phone = some s → s ≠ "") (bf : BookingFlow)
    (hreach : Reachable user bf) (hact : bf.active = true) :
    (bf.awaiting_field = some "confirm" ∧ allRequiredSet bf.slots) ∨
      bf.awaiting_field = firstNullField bf.slots := by
  have hinv := reachable_inv user huser bf hreach
  rcases hinv with ⟨hina, _⟩ | ⟨_, hname, hemail, _, hst⟩
  · rw [hact] at hina
    cases hina
  · rcases hst with ⟨hf, h1, h2, h3⟩ | ⟨hf, h1, h2, h3⟩ | ⟨hf, h1, h2, h3⟩ |
      ⟨hf, h1, h2, h3, h4⟩ | ⟨hf, h1, h2, h3, h4⟩
    · right; rw [hf]; simp [firstNullField, h1]
    · right; rw [hf]; simp [firstNullField, h1, h2]
    · right; rw [hf]; simp [firstNullField, h1, h2, h3]
    · right; rw [hf]; simp [firstNullField, h1, h2, h3, h4]
    · exact Or.inl ⟨hf, hname, hemail, h4, h1, h2, h3⟩

theorem C7_invariant_witness :
    ((run_booking_flow ⟨⟨2025, 1, 1⟩, [], Except.ok (some 1)⟩ "book"
        ⟨"u1", "Ana", "a@b.c", none⟩ reset_booking_flow).1.active = true) ∧
      (((run_booking_flow ⟨⟨2025, 1, 1⟩, [], Except.ok (some 1)⟩ "book"
            ⟨"u1", "Ana", "a@b.c", none⟩ reset_booking_flow).1.awaiting_field =
              some "confirm" ∧
          allRequiredSet (run_booking_flow ⟨⟨2025, 1, 1⟩, [], Except.ok (some 1)⟩ "book"
            ⟨"u1", "Ana", "a@b.c", none⟩ reset_booking_flow).1.slots) ∨
        (run_booking_flow ⟨⟨2025, 1, 1⟩, [], Except.ok (some 1)⟩ "book"
            ⟨"u1", "Ana", "a@b.c", none⟩ reset_booking_flow).1.awaiting_field =
          firstNullField (run_booking_flow ⟨⟨2025, 1, 1⟩, [], Except.ok (some 1)⟩ "book"
            ⟨"u1", "Ana", "a@b.c", none⟩ reset_booking_flow).1.slots) :=
  ⟨rfl,
    C7_invariant ⟨"u1", "Ana", "a@b.c", none⟩ (fun _ h => Option.noConfusion h)
      (run_booking_flow ⟨⟨2025, 1, 1⟩, [], Except.ok (some 1)⟩ "book"
        ⟨"u1", "Ana", "a@b.c", none⟩ reset_booking_flow).1
      (Reachable.step ⟨⟨2025, 1, 1⟩, [], Except.ok (some 1)⟩ "book"
        reset_booking_flow Reachable.init) rfl⟩

end SmilesDental
